import Mathlib

/-!
Verification of the origami circuit simulator (`src/origami.py`).

The Python program simulates combinational logic circuits over tri-state
signals.  A `Pleat` is a named wire holding `signal : Optional[bool]`
(`None` = Unknown).  A `Gadget` (NOT/AND/OR/NAND) holds *object references*
to the `Pleat`s it reads and writes, captured when it is attached to the
`Network`.  The `Network` owns a dict `pleats : name -> Pleat` and an
ordered list of gadgets, runs Kahn's topological sort over the
producer/consumer graph keyed by `gadget_id`, and evaluates gates in a
fixpoint loop of at most `max_iterations` passes.

Embedding choices:
* Python's mutable `Pleat` objects become heap cells: `Network.store` is
  the list of all allocated pleat signals, indexed by allocation order.
  The registry `Network.pleats` maps a name to a cell index, and a gadget
  stores the cell indices it captured at attach time (`inputs`/`outputs`).
  This keeps Python's aliasing semantics: `add_pleat` on an existing name
  allocates a *fresh* cell and rebinds the registry while gadgets keep
  pointing at the old cell, exactly as in the source.
* Python dicts become insertion-ordered association lists; overwriting a
  key keeps its position, a new key is appended — Python dict semantics.
* `collections.deque` used as a FIFO becomes a plain list.
* Python exceptions (`ValueError`) become `Except String`; the raise in
  `topological_sort` happens before any pleat is mutated, so `run` returns
  the untouched network alongside the error.
* The `while queue` loop of Kahn's algorithm is modelled with explicit
  fuel `gadgets.length + 1`.  Each dequeued id is a key of `in_degree` and
  is enqueued at most once (`kahnLoop_inv` below proves the ids in
  `order ++ queue` stay `Nodup`, with non-positive in-degree), so at most
  `gadgets.length` dequeues can ever happen and this fuel is enough for
  the loop to run until the queue is empty, as in Python.
* `in_degree` values are `Int` because Python's `-= 1` can drive a count
  below zero.
* `trace` only prints; it is omitted.
-/

/-- Insertion-ordered dictionary `get`: first binding of the key wins
(Python dicts have unique keys; our `dictInsert` keeps them unique). -/
def dictGet? {α : Type} (d : List (String × α)) (k : String) : Option α :=
  match d with
  | [] => none
  | (k₁, v₁) :: rest => if k₁ = k then some v₁ else dictGet? rest k

/-- Python `d[k] = v`: overwrite in place if the key exists, else append. -/
def dictInsert {α : Type} (d : List (String × α)) (k : String) (v : α) :
    List (String × α) :=
  match d with
  | [] => [(k, v)]
  | (k₁, v₁) :: rest =>
    if k₁ = k then (k₁, v) :: rest else (k₁, v₁) :: dictInsert rest k v

/-- Python `in_degree[k] += delta` (no-op if the key is absent, where
Python would raise `KeyError`; the sort only ever touches existing keys). -/
def degAdd (d : List (String × Int)) (k : String) (delta : Int) :
    List (String × Int) :=
  match d with
  | [] => []
  | (k₁, v₁) :: rest =>
    if k₁ = k then (k₁, v₁ + delta) :: rest else (k₁, v₁) :: degAdd rest k delta

/-- The four gate variants of the source: `NOTGadget`, `ANDGadget`,
`ORGadget`, `NANDGadget`. -/
inductive GKind where
  | NOT | AND | OR | NAND
deriving DecidableEq, Repr

/-- The construction-time data of a `Gadget.__init__` call:
`gadget_id`, ordered input names, ordered output names, and which
`evaluate` override the concrete class installs. -/
structure GadgetSpec where
  gadget_id : String
  kind : GKind
  input_names : List String
  output_names : List String
deriving DecidableEq, Repr

/-- `NOTGadget(gadget_id, input_name, output_name)`. -/
def NOTGadget (gadget_id input_name output_name : String) : GadgetSpec :=
  ⟨gadget_id, GKind.NOT, [input_name], [output_name]⟩

/-- `ANDGadget(gadget_id, input1, input2, output)`. -/
def ANDGadget (gadget_id input1 input2 output : String) : GadgetSpec :=
  ⟨gadget_id, GKind.AND, [input1, input2], [output]⟩

/-- `ORGadget(gadget_id, input1, input2, output)`. -/
def ORGadget (gadget_id input1 input2 output : String) : GadgetSpec :=
  ⟨gadget_id, GKind.OR, [input1, input2], [output]⟩

/-- `NANDGadget(gadget_id, input1, input2, output)`. -/
def NANDGadget (gadget_id input1 input2 output : String) : GadgetSpec :=
  ⟨gadget_id, GKind.NAND, [input1, input2], [output]⟩

/-- A gadget as it lives inside a network: its construction data plus the
pleat cells captured by `connect_inputs` / `connect_outputs` (Python
stores the `Pleat` objects themselves in `self.inputs` / `self.outputs`;
we store the heap indices of those objects). -/
structure GadgetC where
  gadget_id : String
  kind : GKind
  input_names : List String
  output_names : List String
  inputs : List Nat
  outputs : List Nat
deriving DecidableEq, Repr

/-- The `Network`: `store` is the heap of all `Pleat` objects ever
allocated (their `signal` fields, indexed by allocation order), `pleats`
the name registry `self.pleats`, `gadgets` the ordered list
`self.gadgets`. -/
structure Network where
  store : List (Option Bool)
  pleats : List (String × Nat)
  gadgets : List GadgetC
deriving DecidableEq, Repr

/-- `Network()` — empty registry, no gadgets, nothing allocated. -/
def Network.empty : Network := ⟨[], [], []⟩

/-- Read the signal of heap cell `i` (`p.signal`).  Out-of-range reads
return `none`; they never happen for cells captured by the API. -/
def readSig (st : List (Option Bool)) (i : Nat) : Option Bool :=
  st.getD i none

/-- The value a gate writes: `None` as soon as any captured input pleat
holds `None` (`has_undefined_inputs`), otherwise the variant's boolean
function of the input signals.  The wildcard row is unreachable: every
gadget built from the four constructors has the matching arity (Python
would raise `IndexError` there). -/
def gateValue (st : List (Option Bool)) (g : GadgetC) : Option Bool :=
  if g.inputs.any (fun i => (readSig st i).isNone) then none
  else
    match g.kind, g.inputs.map (fun i => (readSig st i).getD false) with
    | GKind.NOT, a :: _ => some (!a)
    | GKind.AND, a :: b :: _ => some (a && b)
    | GKind.OR, a :: b :: _ => some (a || b)
    | GKind.NAND, a :: b :: _ => some (!(a && b))
    | _, _ => none

/-- `Gadget.evaluate` of the four concrete classes: write `gateValue` to
`outputs[0].signal`. -/
def evalGadget (st : List (Option Bool)) (g : GadgetC) : List (Option Bool) :=
  match g.outputs with
  | o :: _ => st.set o (gateValue st g)
  | [] => st

/-- `add_pleat(name, signal=None)`: allocate a fresh `Pleat` object and
bind the name to it (rebinding the name if it already existed, while the
old object stays on the heap for any gadget that captured it). -/
def Network.add_pleat (n : Network) (name : String)
    (signal : Option Bool := none) : Network :=
  { n with
    store := n.store ++ [signal]
    pleats := dictInsert n.pleats name n.store.length }

/-- `Gadget.connect_inputs`: resolve each input name against the registry
in order, raising at the first missing name. -/
def connect_inputs (n : Network) (gadget_id : String) :
    List String → Except String (List Nat)
  | [] => Except.ok []
  | name :: rest =>
    match dictGet? n.pleats name with
    | none =>
      Except.error ("Pleat de entrada \x27" ++ name ++
        "\x27 no encontrado para gadget " ++ gadget_id)
    | some pid =>
      match connect_inputs n gadget_id rest with
      | Except.error e => Except.error e
      | Except.ok pids => Except.ok (pid :: pids)

/-- `Gadget.connect_outputs`: for each output name in order, capture the
registered pleat, allocating a fresh one (signal `None`) for names not in
the registry. -/
def connect_outputs (n : Network) : List String → Network × List Nat
  | [] => (n, [])
  | name :: rest =>
    match dictGet? n.pleats name with
    | some pid =>
      let r := connect_outputs n rest
      (r.1, pid :: r.2)
    | none =>
      let pid := n.store.length
      let n₂ : Network :=
        { n with
          store := n.store ++ [none]
          pleats := dictInsert n.pleats name pid }
      let r := connect_outputs n₂ rest
      (r.1, pid :: r.2)

/-- `add_gadget(gadget)`: `connect_inputs` (raising before anything is
mutated if an input name is unresolved), then `connect_outputs`, then
append the gadget. -/
def Network.add_gadget (n : Network) (spec : GadgetSpec) :
    Except String Network :=
  match connect_inputs n spec.gadget_id spec.input_names with
  | Except.error e => Except.error e
  | Except.ok inIds =>
    let r := connect_outputs n spec.output_names
    Except.ok
      { r.1 with
        gadgets := r.1.gadgets ++
          [⟨spec.gadget_id, spec.kind, spec.input_names, spec.output_names,
            inIds, r.2⟩] }

/-- `set_inputs(dict)`: overwrite the signal of each named pleat in place
(keeping gadget aliases intact), or `add_pleat` for unknown names. -/
def Network.set_inputs (n : Network)
    (input_list : List (String × Option Bool)) : Network :=
  input_list.foldl
    (fun n p =>
      match dictGet? n.pleats p.1 with
      | some pid => { n with store := n.store.set pid p.2 }
      | none => n.add_pleat p.1 p.2)
    n

/-- `pleat_to_producer`: last gadget writing each output wire name wins. -/
def producersOf (n : Network) : List (String × String) :=
  n.gadgets.foldl
    (fun m g => g.output_names.foldl (fun m out => dictInsert m out g.gadget_id) m)
    []

/-- `in_degree = {g.gadget_id: 0 for g in self.gadgets}` — duplicate ids
collapse onto one key. -/
def inDegree0 (n : Network) : List (String × Int) :=
  n.gadgets.foldl (fun d g => dictInsert d g.gadget_id 0) []

/-- `gadget_map = {g.gadget_id: g for g in self.gadgets}` — for duplicate
ids the last gadget wins. -/
def gadgetMap (n : Network) : List (String × GadgetC) :=
  n.gadgets.foldl (fun m g => dictInsert m g.gadget_id g) []

/-- Adjacency of the dependency graph; a missing key is the empty set
(`defaultdict(set)` / `graph.get(gid, [])`).  CPython iterates these sets
in hash order; the embedding realizes them as insertion-ordered
duplicate-free lists. -/
def graphDeps (graph : List (String × List String)) (k : String) :
    List String :=
  (dictGet? graph k).getD []

/-- The inner edge loop of `topological_sort` for one consumer gadget:
for each input name, add the edge producer → consumer (skipping missing
producers, the falsy id `""`, self-loops and duplicate edges) and bump the
consumer's in-degree. -/
def addEdgesFor (producers : List (String × String)) (gid : String) :
    List String → List (String × List String) × List (String × Int) →
    List (String × List String) × List (String × Int)
  | [], acc => acc
  | inp :: rest, acc =>
    let acc₂ :=
      match dictGet? producers inp with
      | some producer =>
        if producer ≠ "" ∧ producer ≠ gid then
          if gid ∈ graphDeps acc.1 producer then acc
          else
            (dictInsert acc.1 producer (graphDeps acc.1 producer ++ [gid]),
             degAdd acc.2 gid 1)
        else acc
      | none => acc
    addEdgesFor producers gid rest acc₂

/-- The edge loop over all gadgets in attachment order. -/
def buildEdgesAux (producers : List (String × String)) :
    List GadgetC → List (String × List String) × List (String × Int) →
    List (String × List String) × List (String × Int)
  | [], acc => acc
  | g :: rest, acc =>
    buildEdgesAux producers rest (addEdgesFor producers g.gadget_id g.input_names acc)

/-- Dependency graph and in-degree table of a network. -/
def buildEdges (n : Network) :
    List (String × List String) × List (String × Int) :=
  buildEdgesAux (producersOf n) n.gadgets ([], inDegree0 n)

def graphOf (n : Network) : List (String × List String) := (buildEdges n).1

def degOf (n : Network) : List (String × Int) := (buildEdges n).2

/-- `deque([gid for gid, deg in in_degree.items() if deg == 0])` — the
FIFO starts with the zero-in-degree ids in key (= attachment) order. -/
def initQueue (n : Network) : List String :=
  ((degOf n).filter (fun p => p.2 == 0)).map Prod.fst

/-- Visiting one dependent `nbr` of a dequeued gadget:
`in_degree[nbr] -= 1; if in_degree[nbr] == 0: queue.append(nbr)`.
The `none` row mirrors a Python `KeyError` that cannot fire: dependents
are always `in_degree` keys. -/
def kahnVisit (acc : List (String × Int) × List String) (nbr : String) :
    List (String × Int) × List String :=
  match dictGet? acc.1 nbr with
  | none => acc
  | some dv =>
    if dv - 1 = 0 then (degAdd acc.1 nbr (-1), acc.2 ++ [nbr])
    else (degAdd acc.1 nbr (-1), acc.2)

/-- One `while queue` step repeated up to `fuel` times: dequeue an id,
append `gadget_map[gid]` to the order, decrement each dependent's
in-degree and enqueue those that reach exactly zero. -/
def kahnLoop (graph : List (String × List String))
    (gmap : List (String × GadgetC)) :
    Nat → List String → List (String × Int) → List GadgetC → List GadgetC
  | 0, _, _, order => order
  | _ + 1, [], _, order => order
  | fuel + 1, gid :: rest, deg, order =>
    let order₂ :=
      match dictGet? gmap gid with
      | some g => order ++ [g]
      | none => order
    let step := (graphDeps graph gid).foldl kahnVisit (deg, rest)
    kahnLoop graph gmap fuel step.2 step.1 order₂

/-- The order produced by Kahn's algorithm on a network. -/
def topoOrderOf (n : Network) : List GadgetC :=
  kahnLoop (graphOf n) (gadgetMap n) (n.gadgets.length + 1) (initQueue n)
    (degOf n) []

/-- Kahn's loop with the dependents of each dequeued gate visited in the
order chosen by `enum`.  The source iterates `graph[gid]`, a Python
`Set[str]`, whose iteration order is hash-based and unspecified: every
permutation of the stored dependents is an admissible realization of
that iteration.  `kahnLoop` is the `enum = id` instance (the embedding's
canonical choice, insertion order). -/
def kahnLoopWith (enum : List String → List String)
    (graph : List (String × List String))
    (gmap : List (String × GadgetC)) :
    Nat → List String → List (String × Int) → List GadgetC → List GadgetC
  | 0, _, _, order => order
  | _ + 1, [], _, order => order
  | fuel + 1, gid :: rest, deg, order =>
    let order₂ :=
      match dictGet? gmap gid with
      | some g => order ++ [g]
      | none => order
    let step := (enum (graphDeps graph gid)).foldl kahnVisit (deg, rest)
    kahnLoopWith enum graph gmap fuel step.2 step.1 order₂

/-- The order produced by Kahn's algorithm when the dependents sets are
iterated in the order chosen by `enum`. -/
def topoOrderWith (enum : List String → List String) (n : Network) :
    List GadgetC :=
  kahnLoopWith enum (graphOf n) (gadgetMap n) (n.gadgets.length + 1)
    (initQueue n) (degOf n) []

/-- `raise ValueError("Ciclo de dependencias detectado en la red")`. -/
def cycleMsg : String := "Ciclo de dependencias detectado en la red"

/-- `topological_sort`: run Kahn's algorithm, fail when the order misses
some gadget. -/
def Network.topological_sort (n : Network) : Except String (List GadgetC) :=
  let order := topoOrderOf n
  if order.length ≠ n.gadgets.length then Except.error cycleMsg
  else Except.ok order

/-- One gadget's slice of an evaluation pass:
`old = [o.signal for o in g.outputs]; g.evaluate(); new = ...;
if old != new: changed = True`. -/
def passStep (acc : List (Option Bool) × Bool) (g : GadgetC) :
    List (Option Bool) × Bool :=
  let old := g.outputs.map (readSig acc.1)
  let st₂ := evalGadget acc.1 g
  let new := g.outputs.map (readSig st₂)
  (st₂, acc.2 || decide (old ≠ new))

/-- One full evaluation pass of `run`: evaluate every gadget in order,
recording whether any gadget's own output signals changed across its
`evaluate` call. -/
def runPass (st : List (Option Bool)) (order : List GadgetC) :
    List (Option Bool) × Bool :=
  order.foldl passStep (st, false)

/-- The `for iteration in range(max_iterations)` loop: run passes until a
pass reports no change or the budget is exhausted; also counts the passes
actually executed (the loop's trip count). -/
def stabilize (order : List GadgetC) (st : List (Option Bool)) :
    Nat → List (Option Bool) × Nat
  | 0 => (st, 0)
  | m + 1 =>
    let p := runPass st order
    if p.2 then
      let r := stabilize order p.1 m
      (r.1, r.2 + 1)
    else (p.1, 1)

/-- `k` unconditional passes in sequence (for stating what `stabilize`
computes). -/
def passIter (order : List GadgetC) (st : List (Option Bool)) :
    Nat → List (Option Bool)
  | 0 => st
  | k + 1 => passIter order (runPass st order).1 k

/-- The snapshot `{name: p.signal for name, p in self.pleats.items()}`
returned by `run`, in registry insertion order. -/
def snapshotOf (n : Network) : List (String × Option Bool) :=
  n.pleats.map (fun p => (p.1, readSig n.store p.2))

/-- `run(max_iterations=5)`: topological sort once, then the stabilization
loop, then the snapshot.  The pair's second component is the network after
the call; on a cycle error nothing has been mutated, so it is `n` itself. -/
def Network.run (n : Network) (max_iterations : Nat := 5) :
    Except String (List (String × Option Bool)) × Network :=
  match n.topological_sort with
  | Except.error e => (Except.error e, n)
  | Except.ok order =>
    let st := (stabilize order n.store max_iterations).1
    let n₂ : Network := { n with store := st }
    (Except.ok (snapshotOf n₂), n₂)

/-- Number of passes `run` executes (0 when the sort fails). -/
def iterUsed (n : Network) (m : Nat) : Nat :=
  match n.topological_sort with
  | Except.error _ => 0
  | Except.ok order => (stabilize order n.store m).2

/-- A network is stabilized when its sort succeeds and a further full pass
changes no gadget's outputs. -/
def stabilized (n : Network) : Bool :=
  match n.topological_sort with
  | Except.error _ => false
  | Except.ok order => !(runPass n.store order).2

/-!  Concrete networks used by witnesses and counterexamples. -/

/-- `build_half_adder_network()`: seven pleats, XOR by composition
(`(a OR b) AND NOT(a AND b)`) plus the carry AND, attached in source
order. -/
def build_half_adder_network : Except String Network := do
  let net := ((((((Network.empty.add_pleat "a").add_pleat "b").add_pleat
    "and_temp").add_pleat "or_temp").add_pleat "not_temp").add_pleat
    "sum").add_pleat "carry"
  let net ← net.add_gadget (ANDGadget "and1" "a" "b" "and_temp")
  let net ← net.add_gadget (ORGadget "or1" "a" "b" "or_temp")
  let net ← net.add_gadget (NOTGadget "not1" "and_temp" "not_temp")
  let net ← net.add_gadget (ANDGadget "and2" "or_temp" "not_temp" "sum")
  let net ← net.add_gadget (ANDGadget "and3_carry" "a" "b" "carry")
  pure net

/-- The half-adder network itself (its construction succeeds). -/
def haNet : Network :=
  match build_half_adder_network with
  | Except.ok n => n
  | Except.error _ => Network.empty

/-- `set_inputs({"a": a, "b": b})` followed by `run()` on the half-adder. -/
def haRun (a b : Bool) :
    Except String (List (String × Option Bool)) × Network :=
  (haNet.set_inputs [("a", some a), ("b", some b)]).run 5

/-- The half-adder's snapshot for inputs `a`, `b`. -/
def haSnap (a b : Bool) : List (String × Option Bool) :=
  match (haRun a b).1 with
  | Except.ok s => s
  | Except.error _ => []

/-- An acyclic network whose wire `"w"` is written by two gadgets with
different values: `OR("a","a")` writes `true`, then `NOT("a")` overwrites
with `false`.  Every pass flips `"w"` to `true` and back to `false`, so
each pass reports a change although the wire values after the pass equal
those before it. -/
def oscNet : Network :=
  match ((Network.empty.add_pleat "a" (some true)).add_pleat "w").add_gadget
      (ORGadget "g1" "a" "a" "w") with
  | Except.ok n =>
    match n.add_gadget (NOTGadget "g2" "a" "w") with
    | Except.ok n => n
    | Except.error _ => Network.empty
  | Except.error _ => Network.empty

/-- The (successful) topological order of `oscNet`. -/
def oscOrder : List GadgetC :=
  match oscNet.topological_sort with
  | Except.ok o => o
  | Except.error _ => []

/-- Two NOT gates each consuming the other's output: a dependency cycle. -/
def cycNet : Network :=
  match ((Network.empty.add_pleat "w1").add_pleat "w2").add_gadget
      (NOTGadget "g1" "w1" "w2") with
  | Except.ok n =>
    match n.add_gadget (NOTGadget "g2" "w2" "w1") with
    | Except.ok n => n
    | Except.error _ => Network.empty
  | Except.error _ => Network.empty

/-- A network already holding one gadget with id `"g"`. -/
def dupBase : Network :=
  match (Network.empty.add_pleat "a").add_gadget (NOTGadget "g" "a" "x") with
  | Except.ok n => n
  | Except.error _ => Network.empty

/-- One producer gate `"p"` (writing `"x"`) with two consumers `"b"` and
`"c"` of `"x"`, attached in that order.  The dependents set of `"p"` is
`{"b", "c"}`; how Python iterates it decides whether `"b"` or `"c"` is
enqueued first. -/
def ordNet : Network :=
  match ((Network.empty.add_pleat "src").add_pleat "x").add_gadget
      (NOTGadget "p" "src" "x") with
  | Except.ok n =>
    match n.add_gadget (NOTGadget "b" "x" "y") with
    | Except.ok n =>
      match n.add_gadget (NOTGadget "c" "x" "z") with
      | Except.ok n => n
      | Except.error _ => Network.empty
    | Except.error _ => Network.empty
  | Except.error _ => Network.empty

/-- The half-adder after `add_pleat("sum")` re-declares the `"sum"` wire
(allocating a fresh pleat object), with inputs `a=True`, `b=False`. -/
def redeclNet : Network :=
  (haNet.add_pleat "sum").set_inputs [("a", some true), ("b", some false)]

/-- Snapshot of a `run` on the re-declared half-adder. -/
def redeclSnap : List (String × Option Bool) :=
  match (redeclNet.run 5).1 with
  | Except.ok s => s
  | Except.error _ => []

/-- One construction step of the public API: `add_pleat` or `add_gadget`. -/
inductive BuildOp where
  | pleat (name : String) (signal : Option Bool)
  | gadget (spec : GadgetSpec)
deriving DecidableEq, Repr

/-- Replay a construction sequence against a network. -/
def buildNetwork : Network → List BuildOp → Except String Network
  | n, [] => Except.ok n
  | n, BuildOp.pleat name s :: rest => buildNetwork (n.add_pleat name s) rest
  | n, BuildOp.gadget spec :: rest =>
    match n.add_gadget spec with
    | Except.error e => Except.error e
    | Except.ok n₂ => buildNetwork n₂ rest

/-- The half-adder's construction sequence as a list of build steps. -/
def haOps : List BuildOp :=
  [BuildOp.pleat "a" none, BuildOp.pleat "b" none,
   BuildOp.pleat "and_temp" none, BuildOp.pleat "or_temp" none,
   BuildOp.pleat "not_temp" none, BuildOp.pleat "sum" none,
   BuildOp.pleat "carry" none,
   BuildOp.gadget (ANDGadget "and1" "a" "b" "and_temp"),
   BuildOp.gadget (ORGadget "or1" "a" "b" "or_temp"),
   BuildOp.gadget (NOTGadget "not1" "and_temp" "not_temp"),
   BuildOp.gadget (ANDGadget "and2" "or_temp" "not_temp" "sum"),
   BuildOp.gadget (ANDGadget "and3_carry" "a" "b" "carry")]

/-!  Basic lemmas about the list and dictionary helpers. -/

theorem getD_set_self {α : Type} (l : List α) (o : Nat) (v d : α)
    (h : o < l.length) : (l.set o v).getD o d = v := by
  induction l generalizing o with
  | nil => simp at h
  | cons a rest ih =>
    cases o with
    | zero => rfl
    | succ o => exact ih o (Nat.lt_of_succ_lt_succ h)

theorem set_getD_self {α : Type} (l : List α) (o : Nat) (d : α)
    (h : o < l.length) : l.set o (l.getD o d) = l := by
  induction l generalizing o with
  | nil => simp at h
  | cons a rest ih =>
    cases o with
    | zero => rfl
    | succ o => simpa [List.set, List.getD] using ih o (Nat.lt_of_succ_lt_succ h)

theorem set_oob {α : Type} (l : List α) (o : Nat) (v : α)
    (h : l.length ≤ o) : l.set o v = l := by
  induction l generalizing o with
  | nil => rfl
  | cons a rest ih =>
    cases o with
    | zero => simp at h
    | succ o => simpa [List.set] using ih o (Nat.le_of_succ_le_succ h)

theorem getD_oob {α : Type} (l : List α) (o : Nat) (d : α)
    (h : l.length ≤ o) : l.getD o d = d := by
  induction l generalizing o with
  | nil => simp [List.getD]
  | cons a rest ih =>
    cases o with
    | zero => simp at h
    | succ o => simpa [List.getD] using ih o (Nat.le_of_succ_le_succ h)

theorem getD_append_left {α : Type} (l r : List α) (i : Nat) (d : α)
    (h : i < l.length) : (l ++ r).getD i d = l.getD i d := by
  induction l generalizing i with
  | nil => simp at h
  | cons a rest ih =>
    cases i with
    | zero => rfl
    | succ i => simpa [List.getD] using ih i (Nat.lt_of_succ_lt_succ h)

theorem getD_append_len {α : Type} (l r : List α) (d : α) :
    (l ++ r).getD l.length d = r.getD 0 d := by
  induction l with
  | nil => rfl
  | cons a rest ih => simpa [List.getD] using ih

theorem dictGet?_insert {α : Type} (d : List (String × α)) (k k' : String)
    (v : α) :
    dictGet? (dictInsert d k v) k' =
      if k = k' then some v else dictGet? d k' := by
  induction d with
  | nil =>
    by_cases h : k = k' <;> simp [dictInsert, dictGet?, h]
  | cons p rest ih =>
    obtain ⟨k₁, v₁⟩ := p
    by_cases h₁ : k₁ = k
    · subst h₁
      by_cases h₂ : k₁ = k' <;> simp [dictInsert, dictGet?, h₂]
    · by_cases h₂ : k₁ = k'
      · subst h₂
        have h₃ : ¬k = k₁ := fun h => h₁ h.symm
        simp [dictInsert, dictGet?, h₁, h₃]
      · simp [dictInsert, dictGet?, h₁, h₂, ih]

theorem dictGet?_mem {α : Type} (d : List (String × α)) (k : String) (v : α)
    (h : dictGet? d k = some v) : (k, v) ∈ d := by
  induction d with
  | nil => simp [dictGet?] at h
  | cons p rest ih =>
    obtain ⟨k₁, v₁⟩ := p
    by_cases h₁ : k₁ = k
    · subst h₁
      simp [dictGet?] at h
      simp [h]
    · simp [dictGet?, h₁] at h
      exact List.mem_cons_of_mem _ (ih h)

theorem dictGet?_some_mem_keys {α : Type} (d : List (String × α))
    (k : String) (v : α) (h : dictGet? d k = some v) :
    k ∈ d.map Prod.fst := by
  simpa using List.mem_map_of_mem Prod.fst (dictGet?_mem d k v h)

theorem dictInsert_keys {α : Type} (d : List (String × α)) (k : String)
    (v : α) :
    (dictInsert d k v).map Prod.fst =
      if k ∈ d.map Prod.fst then d.map Prod.fst
      else d.map Prod.fst ++ [k] := by
  induction d with
  | nil => simp [dictInsert]
  | cons p rest ih =>
    obtain ⟨k₁, v₁⟩ := p
    by_cases h₁ : k₁ = k
    · subst h₁
      simp [dictInsert]
    · by_cases h₂ : k ∈ rest.map Prod.fst <;>
        simp [dictInsert, h₁, Ne.symm h₁, h₂, ih]

theorem degAdd_keys (d : List (String × Int)) (k : String) (δ : Int) :
    (degAdd d k δ).map Prod.fst = d.map Prod.fst := by
  induction d with
  | nil => rfl
  | cons p rest ih =>
    obtain ⟨k₁, v₁⟩ := p
    by_cases h₁ : k₁ = k <;> simp [degAdd, h₁, ih]

theorem dictGet?_degAdd (d : List (String × Int)) (k k' : String) (δ : Int) :
    dictGet? (degAdd d k δ) k' =
      if k = k' then (dictGet? d k').map (· + δ) else dictGet? d k' := by
  induction d with
  | nil => by_cases h : k = k' <;> simp [degAdd, dictGet?, h]
  | cons p rest ih =>
    obtain ⟨k₁, v₁⟩ := p
    by_cases h₁ : k₁ = k
    · subst h₁
      by_cases h₂ : k₁ = k' <;> simp [degAdd, dictGet?, h₂, ih]
    · by_cases h₂ : k₁ = k'
      · subst h₂
        have h₃ : ¬k = k₁ := fun h => h₁ h.symm
        simp [degAdd, dictGet?, h₁, h₃]
      · simp [degAdd, dictGet?, h₁, h₂, ih]

theorem sublist_concat_aux {α : Type} {a : α} {l r : List α}
    (h : l.Sublist r) :
    ∀ l₂ : List α, r = l₂ ++ [a] → a ∉ l → l.Sublist l₂ := by
  induction h with
  | slnil =>
    intro l₂ he _
    cases l₂ <;> simp at he
  | cons b h₁ ih =>
    intro l₂ he ha
    cases l₂ with
    | nil =>
      simp at he
      obtain ⟨hb, hr⟩ := he
      subst hr
      simp [List.sublist_nil.mp h₁]
    | cons c l₂ =>
      simp at he
      obtain ⟨hb, hr⟩ := he
      exact (ih l₂ hr ha).trans (List.sublist_cons_self c l₂)
  | cons₂ b h₁ ih =>
    intro l₂ he ha
    cases l₂ with
    | nil =>
      simp at he
      obtain ⟨hb, hr⟩ := he
      subst hb
      exact absurd (List.mem_cons_self _ _) ha
    | cons c l₂ =>
      simp at he
      obtain ⟨hb, hr⟩ := he
      subst hb
      exact List.Sublist.cons₂ _
        (ih l₂ hr (fun hm => ha (List.mem_cons_of_mem _ hm)))

theorem sublist_concat_of_not_mem {α : Type} {l l₂ : List α} {a : α}
    (h : l.Sublist (l₂ ++ [a])) (ha : a ∉ l) : l.Sublist l₂ :=
  sublist_concat_aux h l₂ rfl ha

instance {ε α : Type} [DecidableEq ε] [DecidableEq α] :
    DecidableEq (Except ε α) := fun x y =>
  match x, y with
  | Except.ok a, Except.ok b => decidable_of_iff (a = b) (by simp)
  | Except.error a, Except.error b => decidable_of_iff (a = b) (by simp)
  | Except.ok _, Except.error _ => isFalse (fun h => Except.noConfusion h)
  | Except.error _, Except.ok _ => isFalse (fun h => Except.noConfusion h)

/-!  C1: strict (non-Kleene) tri-state gate evaluation. -/

/-- The concrete store used by the C1 witness. -/
def stW : List (Option Bool) := [some true, some false, none, some true]

/-- C1.  For every gate variant, `evaluate` applies the strict non-Kleene
rule: whenever any captured input pleat reads `none` (Unknown), the output
pleat is written `none` unconditionally — in particular
`AND(Unknown, True) = Unknown`, covered here by the `match` falling
through to `none` whenever either input is not `some` — and when every
input is defined the output is the variant's boolean function
`¬a`, `a ∧ b`, `a ∨ b`, `¬(a ∧ b)`. -/
theorem gate_evaluation_strict (st : List (Option Bool))
    (gid a_name b_name out_name : String) (i j o : Nat)
    (ho : o < st.length) :
    readSig (evalGadget st ⟨gid, GKind.NOT, [a_name], [out_name], [i], [o]⟩) o
        = (readSig st i).map (fun x => !x)
  ∧ readSig (evalGadget st
        ⟨gid, GKind.AND, [a_name, b_name], [out_name], [i, j], [o]⟩) o
        = (match readSig st i, readSig st j with
           | some x, some y => some (x && y)
           | _, _ => none)
  ∧ readSig (evalGadget st
        ⟨gid, GKind.OR, [a_name, b_name], [out_name], [i, j], [o]⟩) o
        = (match readSig st i, readSig st j with
           | some x, some y => some (x || y)
           | _, _ => none)
  ∧ readSig (evalGadget st
        ⟨gid, GKind.NAND, [a_name, b_name], [out_name], [i, j], [o]⟩) o
        = (match readSig st i, readSig st j with
           | some x, some y => some (!(x && y))
           | _, _ => none) := by
  have hs : ∀ w : Option Bool, readSig (st.set o w) o = w := fun w =>
    getD_set_self st o w none ho
  refine ⟨?_, ?_, ?_, ?_⟩
  · cases hi : readSig st i <;> simp [evalGadget, gateValue, hi, hs]
  · cases hi : readSig st i with
    | none => simp [evalGadget, gateValue, hi, hs]
    | some x =>
      cases hj : readSig st j <;> simp [evalGadget, gateValue, hi, hj, hs]
  · cases hi : readSig st i with
    | none => simp [evalGadget, gateValue, hi, hs]
    | some x =>
      cases hj : readSig st j <;> simp [evalGadget, gateValue, hi, hj, hs]
  · cases hi : readSig st i with
    | none => simp [evalGadget, gateValue, hi, hs]
    | some x =>
      cases hj : readSig st j <;> simp [evalGadget, gateValue, hi, hj, hs]

/-- C1 witness: concrete store, `i = 0`, `j = 1`, output cell `3`. -/
theorem gate_evaluation_strict_witness :
    3 < stW.length
  ∧ (readSig (evalGadget stW ⟨"g", GKind.NOT, ["a"], ["o"], [0], [3]⟩) 3
        = (readSig stW 0).map (fun x => !x)
    ∧ readSig (evalGadget stW ⟨"g", GKind.AND, ["a", "b"], ["o"], [0, 1], [3]⟩) 3
        = (match readSig stW 0, readSig stW 1 with
           | some x, some y => some (x && y)
           | _, _ => none)
    ∧ readSig (evalGadget stW ⟨"g", GKind.OR, ["a", "b"], ["o"], [0, 1], [3]⟩) 3
        = (match readSig stW 0, readSig stW 1 with
           | some x, some y => some (x || y)
           | _, _ => none)
    ∧ readSig (evalGadget stW ⟨"g", GKind.NAND, ["a", "b"], ["o"], [0, 1], [3]⟩) 3
        = (match readSig stW 0, readSig stW 1 with
           | some x, some y => some (!(x && y))
           | _, _ => none)) :=
  ⟨by decide, gate_evaluation_strict stW "g" "a" "b" "o" 0 1 3 (by decide)⟩

/-!  C2: the half-adder truth table. -/

/-- C2.  Building the five-gate half-adder network, calling
`set_inputs({"a": a, "b": b})` and then `run()`, the snapshot has
`sum = a XOR b` and `carry = a AND b` for all four boolean combinations —
exactly the literal table (F,F)→(F,F), (F,T)→(T,F), (T,F)→(T,F),
(T,T)→(F,T). -/
theorem half_adder_table : ∀ a b : Bool,
    build_half_adder_network = Except.ok haNet
  ∧ (haRun a b).1 = Except.ok (haSnap a b)
  ∧ dictGet? (haSnap a b) "sum" = some (some (Bool.xor a b))
  ∧ dictGet? (haSnap a b) "carry" = some (some (a && b)) := by
  intro a b
  cases a <;> cases b <;> decide

/-!  C3: cycle detection leaves the network untouched. -/

/-- C3.  If Kahn's algorithm produces an order shorter than the gadget
list, `run` raises the cycle error and mutates nothing: it returns the
very network it was called on, every wire as before. -/
theorem cycle_error_no_partial (n : Network) (m : Nat)
    (h : (topoOrderOf n).length < n.gadgets.length) :
    n.run m = (Except.error cycleMsg, n) := by
  have hne : (topoOrderOf n).length ≠ n.gadgets.length := Nat.ne_of_lt h
  simp [Network.run, Network.topological_sort, hne]

/-- C3 witness: the two-NOT cycle. -/
theorem cycle_error_no_partial_witness :
    (topoOrderOf cycNet).length < cycNet.gadgets.length
  ∧ cycNet.run 5 = (Except.error cycleMsg, cycNet) :=
  ⟨by decide, cycle_error_no_partial cycNet 5 (by decide)⟩

/-!  C5: when the stabilization loop stops.

The source detects change per gadget: `old = [o.signal for o in
g.outputs]; g.evaluate(); new = ...; if old != new: changed = True`.
A pass in which some gate changes a wire and a later gate changes it back
reports `changed` although every wire ends the pass with the value it
started with — so run does NOT stop "exactly when a full pass leaves
every wire's value unchanged". `oscNet` exhibits this. -/

theorem stabilize_pos (order : List GadgetC) (st : List (Option Bool))
    (m : Nat) (h : 1 ≤ m) : 1 ≤ (stabilize order st m).2 := by
  cases m with
  | zero => exact absurd h (by decide)
  | succ m =>
    by_cases hp : (runPass st order).2 <;> simp [stabilize, hp]

/-- C5 (amended).  The loop executes `(stabilize order st m).2 ≤ m`
passes; the store it returns is exactly that many unconditional passes;
every pass before the last reported a change (some gate's `evaluate`
changed that gate's own output signals); and if the loop stopped before
exhausting the budget, its final pass reported no such change. -/
theorem stabilize_stops_on_no_change (order : List GadgetC)
    (st : List (Option Bool)) (m : Nat) :
    (stabilize order st m).1 = passIter order st (stabilize order st m).2
  ∧ (stabilize order st m).2 ≤ m
  ∧ (List.range ((stabilize order st m).2 - 1)).all
      (fun j => (runPass (passIter order st j) order).2) = true
  ∧ ((stabilize order st m).2 = m ∨
      (runPass (passIter order st ((stabilize order st m).2 - 1)) order).2
        = false) := by
  induction m generalizing st with
  | zero => exact ⟨rfl, Nat.le_refl 0, by simp [stabilize], Or.inl rfl⟩
  | succ m ih =>
    by_cases hp : (runPass st order).2
    · obtain ⟨ih1, ih2, ih3, ih4⟩ := ih (runPass st order).1
      have hs : stabilize order st (m + 1) =
          ((stabilize order (runPass st order).1 m).1,
           (stabilize order (runPass st order).1 m).2 + 1) := by
        simp [stabilize, hp]
      rw [hs]
      refine ⟨?_, ?_, ?_, ?_⟩
      · simpa [passIter] using ih1
      · exact Nat.succ_le_succ ih2
      · simp only [Nat.add_sub_cancel, List.all_eq_true, List.mem_range]
        intro j hj
        cases j with
        | zero => simpa [passIter] using hp
        | succ j =>
          simp only [List.all_eq_true, List.mem_range] at ih3
          have hj₂ : j < (stabilize order (runPass st order).1 m).2 - 1 := by
            omega
          simpa [passIter] using ih3 j hj₂
      · rcases ih4 with h | h
        · exact Or.inl (by omega)
        · cases m with
          | zero =>
            have : (stabilize order (runPass st order).1 0).2 = 0 := rfl
            exact Or.inl (by omega)
          | succ m' =>
            have hpos := stabilize_pos order (runPass st order).1 (m' + 1)
              (by omega)
            right
            have hk : (stabilize order (runPass st order).1 (m' + 1)).2 + 1 - 1 =
                ((stabilize order (runPass st order).1 (m' + 1)).2 - 1) + 1 := by
              omega
            rw [hk]
            simpa [passIter] using h
    · have hs : stabilize order st (m + 1) = ((runPass st order).1, 1) := by
        simp [stabilize, hp]
      rw [hs]
      exact ⟨by simp [passIter], by omega, by simp,
        Or.inr (by simpa [passIter] using eq_false_of_ne_true hp)⟩

/-- C5 counterexample: on `oscNet` with `max_iterations = 5`, the second
full pass leaves every wire exactly as it was before that pass (the store
is a fixed point of `runPass`), yet `run` does not stop there: it consumes
all 5 iterations, because each pass reports per-gate changes. -/
theorem stabilize_stops_on_no_change_cex :
    (runPass (passIter oscOrder oscNet.store 1) oscOrder).1
      = passIter oscOrder oscNet.store 1
  ∧ iterUsed oscNet 5 = 5 := by decide

/-!  C6: exhausting the budget is not an error. -/

/-- C6.  Whenever the topological sort succeeds, `run` returns normally
for EVERY iteration budget — also when `max_iterations` passes did not
reach a fixpoint — with the snapshot mapping every registered wire name to
its signal after the last pass. -/
theorem run_returns_after_budget (n : Network) (order : List GadgetC)
    (m : Nat) (h : n.topological_sort = Except.ok order) :
    n.run m =
      (Except.ok (snapshotOf { n with store := (stabilize order n.store m).1 }),
       { n with store := (stabilize order n.store m).1 }) := by
  simp [Network.run, h]

/-- C6 witness: `oscNet` genuinely exhausts its 5 iterations without a
fixpoint (see the C5 counterexample) and still returns a snapshot. -/
theorem run_returns_after_budget_witness :
    oscNet.topological_sort = Except.ok oscOrder
  ∧ oscNet.run 5 =
      (Except.ok
        (snapshotOf { oscNet with store := (stabilize oscOrder oscNet.store 5).1 }),
       { oscNet with store := (stabilize oscOrder oscNet.store 5).1 }) :=
  ⟨by decide, run_returns_after_budget oscNet oscOrder 5 (by decide)⟩

/-!  C9: re-declaring a wire breaks the aliasing to earlier gates.

`add_pleat` executes `self.pleats[name] = Pleat(name, signal)`: a *fresh*
`Pleat` object replaces the registry binding, while gadgets attached
earlier keep their references to the old object (`connect_inputs` /
`connect_outputs` stored the objects themselves).  After re-declaring
`"sum"` on the half-adder, gate `and2` still writes the *old* cell, the
registry's new `"sum"` pleat stays `None`, and the snapshot shows
`Unknown` — not the computed sum the claim predicts. -/

/-- C9 counterexample: re-declare `"sum"`, set `a=True, b=False`, run.
The claim says gates attached before the re-declaration still write the
wire registered under `"sum"`, so the snapshot would show
`sum = True` (as it does without the re-declaration, second conjunct);
the code instead yields `sum = Unknown`. -/
theorem redeclare_wire_cex :
    dictGet? redeclSnap "sum" = some none
  ∧ dictGet? (haSnap true false) "sum" = some (some true) := by decide

/-- C9 (amended).  Re-declaring a name binds it to a *fresh* pleat holding
the given initial value (default Unknown) at a fresh heap cell
(`n.store.length`); every other name's binding and every previously
allocated cell — including the cells earlier gates still reference — are
unaffected, and the gadget sequence is untouched.  Gates hold direct
object references captured at attach time, NOT name lookups, so gates
attached before the re-declaration keep reading and writing the replaced
object rather than the wire now registered under that name. -/
theorem redeclare_wire_fresh_cell (n : Network) (name : String)
    (v : Option Bool) :
    (n.add_pleat name v).gadgets = n.gadgets
  ∧ (∀ nm, dictGet? (n.add_pleat name v).pleats nm =
      if name = nm then some n.store.length else dictGet? n.pleats nm)
  ∧ (∀ i, readSig (n.add_pleat name v).store i =
      if i = n.store.length then v else readSig n.store i) := by
  refine ⟨rfl, fun nm => ?_, fun i => ?_⟩
  · simpa [Network.add_pleat] using
      dictGet?_insert n.pleats name nm n.store.length
  · by_cases h : i = n.store.length
    · subst h
      rw [if_pos rfl]
      show (n.store ++ [v]).getD n.store.length none = v
      rw [getD_append_len]
      rfl
    · rw [if_neg h]
      show (n.store ++ [v]).getD i none = n.store.getD i none
      rcases Nat.lt_or_ge i n.store.length with h₁ | h₁
      · exact getD_append_left n.store [v] i none h₁
      · have h₂ : n.store.length < i := Nat.lt_of_le_of_ne h₁ (Ne.symm h)
        have h₃ : (n.store ++ [v]).length ≤ i := by
          simp only [List.length_append, List.length_cons, List.length_nil]
          omega
        rw [getD_oob (n.store ++ [v]) i none h₃,
          getD_oob n.store i none (Nat.le_of_lt h₂)]

/-!  C4: `add_gadget` is all-or-nothing. -/

theorem connect_inputs_error_iff (n : Network) (gid : String)
    (names : List String) :
    (∃ e, connect_inputs n gid names = Except.error e) ↔
    ∃ nm, nm ∈ names ∧ dictGet? n.pleats nm = none := by
  induction names with
  | nil => simp [connect_inputs]
  | cons name rest ih =>
    constructor
    · rintro ⟨e, he⟩
      simp only [connect_inputs] at he
      cases hl : dictGet? n.pleats name with
      | none => exact ⟨name, List.mem_cons_self _ _, hl⟩
      | some pid =>
        rw [hl] at he
        cases hr : connect_inputs n gid rest with
        | error e₂ =>
          obtain ⟨nm, hm, hn⟩ := ih.mp ⟨e₂, hr⟩
          exact ⟨nm, List.mem_cons_of_mem _ hm, hn⟩
        | ok pids =>
          rw [hr] at he
          exact Except.noConfusion he
    · rintro ⟨nm, hm, hn⟩
      rcases List.mem_cons.mp hm with rfl | hm₂
      · exact ⟨"Pleat de entrada \x27" ++ nm ++
          "\x27 no encontrado para gadget " ++ gid,
          by simp [connect_inputs, hn]⟩
      · obtain ⟨e, he⟩ := ih.mpr ⟨nm, hm₂, hn⟩
        cases hl : dictGet? n.pleats name with
        | none => exact ⟨"Pleat de entrada \x27" ++ name ++
            "\x27 no encontrado para gadget " ++ gid,
            by simp [connect_inputs, hl]⟩
        | some pid => exact ⟨e, by simp [connect_inputs, hl, he]⟩

theorem connect_outputs_gadgets (names : List String) :
    ∀ n : Network, (connect_outputs n names).1.gadgets = n.gadgets := by
  induction names with
  | nil => intro n; rfl
  | cons name rest ih =>
    intro n
    cases hl : dictGet? n.pleats name <;>
      simp [connect_outputs, hl, ih]

theorem connect_outputs_preserves (names : List String) :
    ∀ (n : Network) (nm : String) (pid : Nat),
      dictGet? n.pleats nm = some pid →
      dictGet? (connect_outputs n names).1.pleats nm = some pid := by
  induction names with
  | nil => intro n nm pid h; exact h
  | cons name rest ih =>
    intro n nm pid h
    cases hl : dictGet? n.pleats name with
    | some pid₂ => simpa [connect_outputs, hl] using ih n nm pid h
    | none =>
      have hne : ¬name = nm := fun he => by rw [he, h] at hl; cases hl
      have h₂ : dictGet? (dictInsert n.pleats name n.store.length) nm
          = some pid := by
        rw [dictGet?_insert, if_neg hne]
        exact h
      simpa [connect_outputs, hl] using ih _ nm pid h₂

theorem connect_outputs_store_ext (names : List String) :
    ∀ n : Network, ∃ ext,
      (connect_outputs n names).1.store = n.store ++ ext := by
  induction names with
  | nil => intro n; exact ⟨[], by simp [connect_outputs]⟩
  | cons name rest ih =>
    intro n
    cases hl : dictGet? n.pleats name with
    | some pid => simpa [connect_outputs, hl] using ih n
    | none =>
      obtain ⟨ext, hext⟩ := ih
        { n with
          store := n.store ++ [none]
          pleats := dictInsert n.pleats name n.store.length }
      exact ⟨[none] ++ ext, by simp [connect_outputs, hl, hext]⟩

theorem connect_outputs_mem (names : List String) :
    ∀ (n : Network) (nm : String),
      (dictGet? (connect_outputs n names).1.pleats nm ≠ none ↔
        (dictGet? n.pleats nm ≠ none ∨ nm ∈ names)) := by
  induction names with
  | nil => intro n nm; simp [connect_outputs]
  | cons name rest ih =>
    intro n nm
    cases hl : dictGet? n.pleats name with
    | some pid =>
      rw [show (connect_outputs n (name :: rest)).1
            = (connect_outputs n rest).1 by simp [connect_outputs, hl]]
      rw [ih n nm]
      constructor
      · rintro (h | h)
        · exact Or.inl h
        · exact Or.inr (List.mem_cons_of_mem _ h)
      · rintro (h | h)
        · exact Or.inl h
        · rcases List.mem_cons.mp h with rfl | h₂
          · exact Or.inl (by rw [hl]; exact fun hc => Option.noConfusion hc)
          · exact Or.inr h₂
    | none =>
      rw [show (connect_outputs n (name :: rest)).1
            = (connect_outputs
                { n with
                  store := n.store ++ [none]
                  pleats := dictInsert n.pleats name n.store.length }
                rest).1 by simp [connect_outputs, hl]]
      rw [ih _ nm]
      show (dictGet? (dictInsert n.pleats name n.store.length) nm ≠ none ∨ _) ↔ _
      rw [dictGet?_insert]
      by_cases he : name = nm
      · subst he
        simp
      · rw [if_neg he]
        constructor
        · rintro (h | h)
          · exact Or.inl h
          · exact Or.inr (List.mem_cons_of_mem _ h)
        · rintro (h | h)
          · exact Or.inl h
          · rcases List.mem_cons.mp h with rfl | h₂
            · exact absurd rfl he
            · exact Or.inr h₂

theorem connect_outputs_new (names : List String) :
    ∀ (n : Network) (nm : String), nm ∈ names →
      dictGet? n.pleats nm = none →
      ∃ pid, dictGet? (connect_outputs n names).1.pleats nm = some pid ∧
        readSig (connect_outputs n names).1.store pid = none := by
  induction names with
  | nil => intro n nm hm; exact absurd hm (List.not_mem_nil nm)
  | cons name rest ih =>
    intro n nm hm habs
    by_cases he : nm = name
    · subst he
      rw [show connect_outputs n (nm :: rest)
            = ((connect_outputs
                { n with
                  store := n.store ++ [none]
                  pleats := dictInsert n.pleats nm n.store.length }
                rest).1,
               n.store.length ::
                (connect_outputs
                  { n with
                    store := n.store ++ [none]
                    pleats := dictInsert n.pleats nm n.store.length }
                  rest).2) by simp [connect_outputs, habs]]
      set n₂ : Network :=
        { n with
          store := n.store ++ [none]
          pleats := dictInsert n.pleats nm n.store.length } with hn₂
      have hbind : dictGet? n₂.pleats nm = some n.store.length := by
        rw [hn₂]
        show dictGet? (dictInsert n.pleats nm n.store.length) nm = _
        rw [dictGet?_insert, if_pos rfl]
      refine ⟨n.store.length, connect_outputs_preserves rest n₂ nm _ hbind, ?_⟩
      obtain ⟨ext, hext⟩ := connect_outputs_store_ext rest n₂
      rw [hext]
      have hlen : n.store.length < n₂.store.length := by
        rw [hn₂]
        simp
      show (n₂.store ++ ext).getD n.store.length none = none
      rw [getD_append_left _ _ _ _ hlen]
      rw [hn₂]
      show (n.store ++ [none]).getD n.store.length none = none
      rw [getD_append_len]
      rfl
    · have hm₂ : nm ∈ rest := by
        rcases List.mem_cons.mp hm with h | h
        · exact absurd h he
        · exact h
      cases hl : dictGet? n.pleats name with
      | some pid =>
        rw [show (connect_outputs n (name :: rest)).1
              = (connect_outputs n rest).1 by simp [connect_outputs, hl]]
        exact ih n nm hm₂ habs
      | none =>
        rw [show (connect_outputs n (name :: rest)).1
              = (connect_outputs
                  { n with
                    store := n.store ++ [none]
                    pleats := dictInsert n.pleats name n.store.length }
                  rest).1 by simp [connect_outputs, hl]]
        refine ih _ nm hm₂ ?_
        show dictGet? (dictInsert n.pleats name n.store.length) nm = none
        rw [dictGet?_insert, if_neg (fun h => he h.symm)]
        exact habs

/-- C4.  `add_gadget` fails with the unresolved-wire error exactly when
some input wire name is absent from the registry, and it is
all-or-nothing.  `connect_inputs` raises before anything is mutated, so
the failing branch carries no network at all — registry and gate sequence
of the caller's network are untouched.  On success, the gate (with the
spec's id, variant and wire names) is appended to the gate sequence;
a name is registered afterwards exactly when it was registered before or
is one of the gate's output names; every previously registered name keeps
its binding; and every output name that was not yet present is freshly
created with value Unknown. -/
theorem attach_gate_all_or_nothing (n : Network) (spec : GadgetSpec) :
    ((∃ e, n.add_gadget spec = Except.error e) ↔
      ∃ nm, nm ∈ spec.input_names ∧ dictGet? n.pleats nm = none)
  ∧ (∀ n₂, n.add_gadget spec = Except.ok n₂ →
      (∃ g, n₂.gadgets = n.gadgets ++ [g]
        ∧ g.gadget_id = spec.gadget_id ∧ g.kind = spec.kind
        ∧ g.input_names = spec.input_names
        ∧ g.output_names = spec.output_names)
      ∧ (∀ nm, dictGet? n₂.pleats nm ≠ none ↔
          (dictGet? n.pleats nm ≠ none ∨ nm ∈ spec.output_names))
      ∧ (∀ nm pid, dictGet? n.pleats nm = some pid →
          dictGet? n₂.pleats nm = some pid)
      ∧ (∀ nm, nm ∈ spec.output_names → dictGet? n.pleats nm = none →
          ∃ pid, dictGet? n₂.pleats nm = some pid ∧
            readSig n₂.store pid = none)) := by
  constructor
  · rw [← connect_inputs_error_iff n spec.gadget_id spec.input_names]
    constructor
    · rintro ⟨e, he⟩
      simp only [Network.add_gadget] at he
      cases hc : connect_inputs n spec.gadget_id spec.input_names with
      | error e₂ => exact ⟨e₂, rfl⟩
      | ok ids =>
        rw [hc] at he
        exact Except.noConfusion he
    · rintro ⟨e, he⟩
      exact ⟨e, by simp [Network.add_gadget, he]⟩
  · intro n₂ h
    simp only [Network.add_gadget] at h
    cases hc : connect_inputs n spec.gadget_id spec.input_names with
    | error e =>
      rw [hc] at h
      exact Except.noConfusion h
    | ok ids =>
      rw [hc] at h
      have h₂ := Except.ok.inj h
      subst h₂
      refine ⟨⟨_, by rw [connect_outputs_gadgets], rfl, rfl, rfl, rfl⟩,
        fun nm => ?_, fun nm pid hb => ?_, fun nm hm habs => ?_⟩
      · exact connect_outputs_mem spec.output_names n nm
      · exact connect_outputs_preserves spec.output_names n nm pid hb
      · exact connect_outputs_new spec.output_names n nm hm habs

/-!  Kahn scheduler facts shared by the determinism and duplicate-id
claims: keys of the id-keyed tables, adjacency lists ordered by
attachment, and the loop invariant (ids of `order ++ queue` stay
duplicate-free with non-positive in-degree). -/

theorem dictInsert_keys_nodup {α : Type} (d : List (String × α))
    (k : String) (v : α) (h : (d.map Prod.fst).Nodup) :
    ((dictInsert d k v).map Prod.fst).Nodup := by
  rw [dictInsert_keys]
  by_cases hk : k ∈ d.map Prod.fst
  · simpa [hk] using h
  · rw [if_neg hk]
    rw [List.nodup_append]
    exact ⟨h, List.nodup_singleton k, fun x hx hx₂ =>
      hk (by rwa [List.mem_singleton.mp hx₂] at hx)⟩

theorem mem_dictInsert {α : Type} (d : List (String × α)) (k : String)
    (v : α) (p : String × α) (h : p ∈ dictInsert d k v) :
    p ∈ d ∨ p = (k, v) := by
  induction d with
  | nil => simpa [dictInsert] using h
  | cons q rest ih =>
    obtain ⟨k₁, v₁⟩ := q
    by_cases h₁ : k₁ = k
    · subst h₁
      simp only [dictInsert, if_pos rfl] at h
      rcases List.mem_cons.mp h with rfl | h₂
      · exact Or.inr rfl
      · exact Or.inl (List.mem_cons_of_mem _ h₂)
    · simp only [dictInsert, if_neg h₁] at h
      rcases List.mem_cons.mp h with rfl | h₂
      · exact Or.inl (List.mem_cons_self _ _)
      · rcases ih h₂ with h₃ | h₃
        · exact Or.inl (List.mem_cons_of_mem _ h₃)
        · exact Or.inr h₃

theorem dictGet?_of_mem_nodup {α : Type} (d : List (String × α))
    (k : String) (v : α) (hn : (d.map Prod.fst).Nodup) (h : (k, v) ∈ d) :
    dictGet? d k = some v := by
  induction d with
  | nil => exact absurd h (List.not_mem_nil _)
  | cons q rest ih =>
    obtain ⟨k₁, v₁⟩ := q
    rcases List.mem_cons.mp h with h₂ | h₂
    · injection h₂ with hk hv
      subst hk
      subst hv
      simp [dictGet?]
    · have hk : k₁ ≠ k := by
        intro he
        subst he
        have : k₁ ∈ rest.map Prod.fst := by
          simpa using List.mem_map_of_mem Prod.fst h₂
        simp only [List.map_cons, List.nodup_cons] at hn
        exact hn.1 this
      simp only [dictGet?, if_neg hk]
      simp only [List.map_cons, List.nodup_cons] at hn
      exact ih hn.2 h₂

theorem foldInsert_keys_nodup {α : Type} (f : GadgetC → α)
    (gs : List GadgetC) :
    ∀ d : List (String × α), (d.map Prod.fst).Nodup →
    (((gs.foldl (fun d g => dictInsert d g.gadget_id (f g)) d)).map
        Prod.fst).Nodup := by
  induction gs with
  | nil => intro d h; exact h
  | cons g rest ih =>
    intro d h
    exact ih _ (dictInsert_keys_nodup d g.gadget_id (f g) h)

theorem foldInsert_keys_sublist {α : Type} (f : GadgetC → α)
    (gs : List GadgetC) :
    ∀ d : List (String × α),
    ((gs.foldl (fun d g => dictInsert d g.gadget_id (f g)) d).map
        Prod.fst).Sublist
      (d.map Prod.fst ++ gs.map GadgetC.gadget_id) := by
  induction gs with
  | nil =>
    intro d
    rw [List.map_nil, List.append_nil]
    exact List.Sublist.refl _
  | cons g rest ih =>
    intro d
    have h := ih (dictInsert d g.gadget_id (f g))
    rw [dictInsert_keys] at h
    by_cases hk : g.gadget_id ∈ d.map Prod.fst
    · rw [if_pos hk] at h
      refine h.trans ?_
      rw [List.map_cons, show d.map Prod.fst ++ g.gadget_id :: rest.map
          GadgetC.gadget_id = d.map Prod.fst ++ ([g.gadget_id] ++ rest.map
          GadgetC.gadget_id) from rfl]
      exact List.Sublist.append (List.Sublist.refl _)
        (List.sublist_append_right _ _)
    · rw [if_neg hk] at h
      refine h.trans ?_
      rw [List.map_cons, List.append_assoc]
      exact List.Sublist.refl _

theorem foldInsert_entries (gs : List GadgetC) :
    ∀ m : List (String × GadgetC),
      (∀ p ∈ m, (Prod.snd p).gadget_id = Prod.fst p) →
      ∀ p ∈ gs.foldl (fun m g => dictInsert m g.gadget_id g) m,
        (Prod.snd p).gadget_id = Prod.fst p := by
  induction gs with
  | nil => intro m h p hp; exact h p hp
  | cons g rest ih =>
    intro m h p hp
    refine ih _ (fun q hq => ?_) p hp
    rcases mem_dictInsert m g.gadget_id g q hq with h₂ | h₂
    · exact h q h₂
    · rw [h₂]

theorem gadgetMap_id (n : Network) (k : String) (g : GadgetC)
    (h : dictGet? (gadgetMap n) k = some g) : g.gadget_id = k :=
  foldInsert_entries n.gadgets [] (by intro p hp; cases hp) (k, g)
    (dictGet?_mem _ k g h)

theorem addEdgesFor_deg_keys (producers : List (String × String))
    (gid : String) :
    ∀ (inputs : List String)
      (acc : List (String × List String) × List (String × Int)),
      (addEdgesFor producers gid inputs acc).2.map Prod.fst
        = acc.2.map Prod.fst := by
  intro inputs
  induction inputs with
  | nil => intro acc; rfl
  | cons inp rest ih =>
    intro acc
    show (addEdgesFor producers gid rest _).2.map Prod.fst = _
    cases hp : dictGet? producers inp with
    | none => simpa [hp] using ih acc
    | some producer =>
      by_cases hc : producer ≠ "" ∧ producer ≠ gid
      · by_cases hm : gid ∈ graphDeps acc.1 producer
        · simpa [hp, hc, hm] using ih acc
        · have h₂ := ih (dictInsert acc.1 producer
            (graphDeps acc.1 producer ++ [gid]), degAdd acc.2 gid 1)
          simp only [hc, hm, and_self, if_true, if_false, ite_true,
            ite_false, not_false_eq_true, ne_eq]
          rw [h₂]
          exact degAdd_keys acc.2 gid 1
      · simpa [hp, hc] using ih acc

theorem buildEdgesAux_deg_keys (producers : List (String × String)) :
    ∀ (gs : List GadgetC)
      (acc : List (String × List String) × List (String × Int)),
      (buildEdgesAux producers gs acc).2.map Prod.fst
        = acc.2.map Prod.fst := by
  intro gs
  induction gs with
  | nil => intro acc; rfl
  | cons g rest ih =>
    intro acc
    show (buildEdgesAux producers rest _).2.map Prod.fst = _
    rw [ih _]
    exact addEdgesFor_deg_keys producers g.gadget_id g.input_names acc

/-- Every adjacency list of `graph` is a subsequence of `ids`. -/
def GraphBounded (ids : List String)
    (graph : List (String × List String)) : Prop :=
  ∀ p deps, dictGet? graph p = some deps → deps.Sublist ids

theorem graphBounded_mono {ids ids₂ : List String}
    {graph : List (String × List String)} (h : GraphBounded ids graph)
    (hs : ids.Sublist ids₂) : GraphBounded ids₂ graph :=
  fun p deps hp => (h p deps hp).trans hs

theorem addEdgesFor_graphBounded (producers : List (String × String))
    (gid : String) (ids : List String) :
    ∀ (inputs : List String)
      (acc : List (String × List String) × List (String × Int)),
      GraphBounded (ids ++ [gid]) acc.1 →
      GraphBounded (ids ++ [gid]) (addEdgesFor producers gid inputs acc).1 := by
  intro inputs
  induction inputs with
  | nil => intro acc h; exact h
  | cons inp rest ih =>
    intro acc h
    show GraphBounded _ (addEdgesFor producers gid rest _).1
    cases hp : dictGet? producers inp with
    | none => simpa [hp] using ih acc h
    | some producer =>
      by_cases hc : producer ≠ "" ∧ producer ≠ gid
      · by_cases hm : gid ∈ graphDeps acc.1 producer
        · simpa [hp, hc, hm] using ih acc h
        · simp only [hc, hm, and_self, if_true, if_false, ite_true,
            ite_false, not_false_eq_true, ne_eq]
          refine ih _ (fun p deps hd => ?_)
          rw [dictGet?_insert] at hd
          by_cases hpp : producer = p
          · rw [if_pos hpp] at hd
            have hdeq : deps = graphDeps acc.1 producer ++ [gid] :=
              (Option.some.inj hd).symm
            subst hdeq
            refine List.Sublist.append ?_ (List.Sublist.refl [gid])
            cases hg : dictGet? acc.1 producer with
            | none => simp [graphDeps, hg]
            | some dold =>
              have hb := h producer dold hg
              have : gid ∉ graphDeps acc.1 producer := hm
              rw [graphDeps, hg] at this ⊢
              exact sublist_concat_of_not_mem hb this
          · rw [if_neg hpp] at hd
            exact h p deps hd
      · simpa [hp, hc] using ih acc h

theorem buildEdgesAux_graphBounded (producers : List (String × String)) :
    ∀ (gs : List GadgetC)
      (acc : List (String × List String) × List (String × Int))
      (ids : List String),
      GraphBounded ids acc.1 →
      GraphBounded (ids ++ gs.map GadgetC.gadget_id)
        (buildEdgesAux producers gs acc).1 := by
  intro gs
  induction gs with
  | nil =>
    intro acc ids h
    simpa using h
  | cons g rest ih =>
    intro acc ids h
    show GraphBounded _ (buildEdgesAux producers rest _).1
    have h₂ : GraphBounded (ids ++ [g.gadget_id]) acc.1 :=
      graphBounded_mono h (List.sublist_append_left ids [g.gadget_id])
    have h₃ := addEdgesFor_graphBounded producers g.gadget_id ids
      g.input_names acc h₂
    have h₄ := ih _ (ids ++ [g.gadget_id]) h₃
    rw [List.append_assoc] at h₄
    exact h₄

/-- C7's adjacency-order fact: every dependents list of the graph is a
subsequence of the gadget ids in attachment order. -/
theorem graphOf_bounded (n : Network) :
    GraphBounded (n.gadgets.map GadgetC.gadget_id) (graphOf n) := by
  have h := buildEdgesAux_graphBounded (producersOf n) n.gadgets
    ([], inDegree0 n) [] (fun p deps hd => by cases hd)
  simpa using h

theorem degOf_keys (n : Network) :
    (degOf n).map Prod.fst = (inDegree0 n).map Prod.fst :=
  buildEdgesAux_deg_keys (producersOf n) n.gadgets ([], inDegree0 n)

theorem inDegree0_keys_nodup (n : Network) :
    ((inDegree0 n).map Prod.fst).Nodup :=
  foldInsert_keys_nodup (fun _ => (0 : Int)) n.gadgets [] (by simp)

theorem inDegree0_keys_sublist (n : Network) :
    ((inDegree0 n).map Prod.fst).Sublist (n.gadgets.map GadgetC.gadget_id) := by
  have h := foldInsert_keys_sublist (fun _ => (0 : Int)) n.gadgets []
  simpa using h

/-- C7's queue-initialization fact: the initial FIFO is a subsequence of
the gadget ids in attachment order. -/
theorem initQueue_sublist (n : Network) :
    (initQueue n).Sublist (n.gadgets.map GadgetC.gadget_id) := by
  have h₁ : (initQueue n).Sublist ((degOf n).map Prod.fst) :=
    List.Sublist.map Prod.fst (List.filter_sublist (degOf n))
  rw [degOf_keys] at h₁
  exact h₁.trans (inDegree0_keys_sublist n)

theorem kahnVisit_fold_inv (keys : List String) (done : List String) :
    ∀ (deps : List String) (deg : List (String × Int)) (q : List String),
      deg.map Prod.fst = keys →
      (done ++ q).Nodup →
      (∀ x ∈ done ++ q, ∃ d, dictGet? deg x = some d ∧ d ≤ 0) →
      ((deps.foldl kahnVisit (deg, q)).1.map Prod.fst = keys
       ∧ (done ++ (deps.foldl kahnVisit (deg, q)).2).Nodup
       ∧ (∀ x ∈ done ++ (deps.foldl kahnVisit (deg, q)).2,
           ∃ d, dictGet? (deps.foldl kahnVisit (deg, q)).1 x = some d
             ∧ d ≤ 0)) := by
  intro deps
  induction deps with
  | nil => intro deg q h₁ h₂ h₃; exact ⟨h₁, h₂, h₃⟩
  | cons nbr rest ih =>
    intro deg q h₁ h₂ h₃
    simp only [List.foldl_cons]
    cases hv : dictGet? deg nbr with
    | none =>
      rw [show kahnVisit (deg, q) nbr = (deg, q) from by simp [kahnVisit, hv]]
      exact ih deg q h₁ h₂ h₃
    | some dv =>
      by_cases hz : dv - 1 = 0
      · rw [show kahnVisit (deg, q) nbr = (degAdd deg nbr (-1), q ++ [nbr])
          from by simp [kahnVisit, hv, hz]]
        have hnmem : nbr ∉ done ++ q := by
          intro hmem
          obtain ⟨d, hd, hle⟩ := h₃ nbr hmem
          rw [hv] at hd
          have hdd : dv = d := Option.some.inj hd
          omega
        apply ih
        · rw [degAdd_keys]; exact h₁
        · rw [← List.append_assoc, List.nodup_append]
          exact ⟨h₂, List.nodup_singleton _, fun x hx hx₂ =>
            hnmem (by rwa [List.mem_singleton.mp hx₂] at hx)⟩
        · intro x hx
          rw [← List.append_assoc] at hx
          rcases List.mem_append.mp hx with hx₁ | hx₁
          · obtain ⟨d, hd, hle⟩ := h₃ x hx₁
            have hxn : x ≠ nbr := fun he => hnmem (he ▸ hx₁)
            refine ⟨d, ?_, hle⟩
            rw [dictGet?_degAdd, if_neg (fun he => hxn he.symm)]
            exact hd
          · rw [List.mem_singleton.mp hx₁]
            refine ⟨dv + (-1), ?_, by omega⟩
            rw [dictGet?_degAdd, if_pos rfl, hv]
            rfl
      · rw [show kahnVisit (deg, q) nbr = (degAdd deg nbr (-1), q)
          from by simp [kahnVisit, hv, hz]]
        apply ih
        · rw [degAdd_keys]; exact h₁
        · exact h₂
        · intro x hx
          obtain ⟨d, hd, hle⟩ := h₃ x hx
          by_cases hxn : x = nbr
          · subst hxn
            rw [hv] at hd
            have hdd : dv = d := Option.some.inj hd
            refine ⟨dv + (-1), ?_, by omega⟩
            rw [dictGet?_degAdd, if_pos rfl, hv]
            rfl
          · refine ⟨d, ?_, hle⟩
            rw [dictGet?_degAdd, if_neg (fun he => hxn he.symm)]
            exact hd

theorem kahnLoop_inv (graph : List (String × List String))
    (gmap : List (String × GadgetC)) (keys : List String)
    (hgmap : ∀ k g, dictGet? gmap k = some g → g.gadget_id = k) :
    ∀ (fuel : Nat) (queue : List String) (deg : List (String × Int))
      (order : List GadgetC),
      deg.map Prod.fst = keys →
      (order.map GadgetC.gadget_id ++ queue).Nodup →
      (∀ x ∈ order.map GadgetC.gadget_id ++ queue,
        ∃ d, dictGet? deg x = some d ∧ d ≤ 0) →
      (((kahnLoop graph gmap fuel queue deg order).map
          GadgetC.gadget_id).Nodup
       ∧ ∀ x ∈ (kahnLoop graph gmap fuel queue deg order).map
           GadgetC.gadget_id, x ∈ keys) := by
  intro fuel
  induction fuel with
  | zero =>
    intro queue deg order h₁ h₂ h₃
    refine ⟨List.Nodup.sublist (List.sublist_append_left _ _) h₂,
      fun x hx => ?_⟩
    obtain ⟨d, hd, _⟩ := h₃ x (List.mem_append.mpr (Or.inl hx))
    rw [← h₁]
    exact dictGet?_some_mem_keys deg x d hd
  | succ fuel ih =>
    intro queue deg order h₁ h₂ h₃
    cases queue with
    | nil =>
      refine ⟨by simpa using h₂, fun x hx => ?_⟩
      obtain ⟨d, hd, _⟩ := h₃ x (by simpa using hx)
      rw [← h₁]
      exact dictGet?_some_mem_keys deg x d hd
    | cons gid rest =>
      simp only [kahnLoop]
      cases hg : dictGet? gmap gid with
      | some g =>
        have hid := hgmap gid g hg
        have hmem_eq : (order ++ [g]).map GadgetC.gadget_id ++ rest
            = order.map GadgetC.gadget_id ++ (gid :: rest) := by
          rw [List.map_append, List.append_assoc]
          simp [hid]
        obtain ⟨hk₁, hk₂, hk₃⟩ := kahnVisit_fold_inv keys
          ((order ++ [g]).map GadgetC.gadget_id)
          (graphDeps graph gid) deg rest
          h₁ (by rw [hmem_eq]; exact h₂) (by rw [hmem_eq]; exact h₃)
        exact ih _ _ _ hk₁ hk₂ hk₃
      | none =>
        have hsub : (order.map GadgetC.gadget_id ++ rest).Sublist
            (order.map GadgetC.gadget_id ++ (gid :: rest)) :=
          List.Sublist.append (List.Sublist.refl _)
            (List.sublist_cons_self _ _)
        obtain ⟨hk₁, hk₂, hk₃⟩ := kahnVisit_fold_inv keys
          (order.map GadgetC.gadget_id)
          (graphDeps graph gid) deg rest
          h₁ (List.Nodup.sublist hsub h₂)
          (fun x hx => h₃ x (hsub.subset hx))
        exact ih _ _ _ hk₁ hk₂ hk₃

theorem initQueue_nodup (n : Network) : (initQueue n).Nodup := by
  have h : (initQueue n).Sublist ((degOf n).map Prod.fst) :=
    List.Sublist.map Prod.fst (List.filter_sublist (degOf n))
  rw [degOf_keys] at h
  exact List.Nodup.sublist h (inDegree0_keys_nodup n)

theorem initQueue_deg (n : Network) (x : String) (hx : x ∈ initQueue n) :
    dictGet? (degOf n) x = some 0 := by
  obtain ⟨p, hp, rfl⟩ := List.mem_map.mp hx
  have hf := List.mem_filter.mp hp
  have hz : p.2 = 0 := by simpa using hf.2
  have hnodup : ((degOf n).map Prod.fst).Nodup := by
    rw [degOf_keys]
    exact inDegree0_keys_nodup n
  have hget := dictGet?_of_mem_nodup (degOf n) p.1 p.2 hnodup hf.1
  rw [hz] at hget
  exact hget

/-- With duplicate gadget ids the id-keyed tables collapse, so Kahn's
order — whose ids stay duplicate-free — is necessarily shorter than the
gadget sequence. -/
theorem topoOrder_short_of_dup (n : Network)
    (hdup : ¬(n.gadgets.map GadgetC.gadget_id).Nodup) :
    (topoOrderOf n).length < n.gadgets.length := by
  have hloop := kahnLoop_inv (graphOf n) (gadgetMap n)
    ((inDegree0 n).map Prod.fst) (gadgetMap_id n)
    (n.gadgets.length + 1) (initQueue n) (degOf n) []
    (degOf_keys n) (by simpa using initQueue_nodup n)
    (by
      intro x hx
      simp only [List.map_nil, List.nil_append] at hx
      exact ⟨0, initQueue_deg n x hx, le_refl 0⟩)
  have hnodup : ((topoOrderOf n).map GadgetC.gadget_id).Nodup := hloop.1
  have hmem : ∀ x ∈ (topoOrderOf n).map GadgetC.gadget_id,
      x ∈ (inDegree0 n).map Prod.fst := hloop.2
  have hlen₁ : ((topoOrderOf n).map GadgetC.gadget_id).length ≤
      ((inDegree0 n).map Prod.fst).length :=
    (List.Nodup.subperm hnodup (fun x hx => hmem x hx)).length_le
  have hkeyslen : ((inDegree0 n).map Prod.fst).length ≤
      (n.gadgets.map GadgetC.gadget_id).dedup.length := by
    have h₁ := (inDegree0_keys_sublist n).subset
    exact (List.Nodup.subperm (inDegree0_keys_nodup n)
      (fun x hx => List.mem_dedup.mpr (h₁ hx))).length_le
  have hdlt : (n.gadgets.map GadgetC.gadget_id).dedup.length <
      (n.gadgets.map GadgetC.gadget_id).length := by
    have hsub := List.dedup_sublist (n.gadgets.map GadgetC.gadget_id)
    rcases Nat.lt_or_ge (n.gadgets.map GadgetC.gadget_id).dedup.length
      (n.gadgets.map GadgetC.gadget_id).length with h | h
    · exact h
    · exfalso
      have heq := hsub.eq_of_length (Nat.le_antisymm hsub.length_le h)
      exact hdup (heq ▸ List.nodup_dedup (n.gadgets.map GadgetC.gadget_id))
  have hmaplen : ((topoOrderOf n).map GadgetC.gadget_id).length
      = (topoOrderOf n).length := List.length_map _ _
  have hglen : (n.gadgets.map GadgetC.gadget_id).length
      = n.gadgets.length := List.length_map _ _
  omega

theorem run_error_of_dup (n : Network) (m : Nat)
    (hdup : ¬(n.gadgets.map GadgetC.gadget_id).Nodup) :
    n.run m = (Except.error cycleMsg, n) := by
  have hne : (topoOrderOf n).length ≠ n.gadgets.length :=
    Nat.ne_of_lt (topoOrder_short_of_dup n hdup)
  simp [Network.run, Network.topological_sort, hne]

/-!  C10: duplicate gadget ids are accepted and then always trip the
cycle detector. -/

/-- C10.  `add_gadget` performs no id-uniqueness check: attaching a gate
whose id equals an already-attached gate's id succeeds whenever its input
names resolve; and on the resulting network — whatever the actual wiring,
cyclic or not — `run` always raises the cycle error (returning the
network unmutated), because the scheduler keys `gadget_map` and
`in_degree` by id, collapsing the duplicates so the computed order is
shorter than the gate sequence. -/
theorem duplicate_gadget_id_cycle_error (n : Network) (spec : GadgetSpec)
    (m : Nat)
    (hin : ∀ nm ∈ spec.input_names, dictGet? n.pleats nm ≠ none)
    (hdup : spec.gadget_id ∈ n.gadgets.map GadgetC.gadget_id) :
    ∃ n₂, n.add_gadget spec = Except.ok n₂
      ∧ n₂.run m = (Except.error cycleMsg, n₂) := by
  cases hc : connect_inputs n spec.gadget_id spec.input_names with
  | error e =>
    exfalso
    obtain ⟨nm, hm, hnone⟩ :=
      (connect_inputs_error_iff n spec.gadget_id spec.input_names).mp ⟨e, hc⟩
    exact hin nm hm hnone
  | ok inIds =>
    set n₂ : Network :=
      { (connect_outputs n spec.output_names).1 with
        gadgets := (connect_outputs n spec.output_names).1.gadgets ++
          [⟨spec.gadget_id, spec.kind, spec.input_names, spec.output_names,
            inIds, (connect_outputs n spec.output_names).2⟩] } with hn₂
    have hok : n.add_gadget spec = Except.ok n₂ := by
      rw [hn₂]
      simp [Network.add_gadget, hc]
    have hids : n₂.gadgets.map GadgetC.gadget_id
        = n.gadgets.map GadgetC.gadget_id ++ [spec.gadget_id] := by
      rw [hn₂]
      show ((connect_outputs n spec.output_names).1.gadgets ++ [_]).map _ = _
      rw [connect_outputs_gadgets, List.map_append]
      rfl
    have hdup₂ : ¬(n₂.gadgets.map GadgetC.gadget_id).Nodup := by
      rw [hids, List.nodup_append]
      rintro ⟨-, -, hdisj⟩
      exact hdisj hdup (List.mem_singleton.mpr rfl)
    exact ⟨n₂, hok, run_error_of_dup n₂ m hdup₂⟩

/-- C10 witness: a second NOT gate re-using id `"g"` on an acyclic
network. -/
theorem duplicate_gadget_id_cycle_error_witness :
    (∀ nm ∈ (NOTGadget "g" "a" "y").input_names,
      dictGet? dupBase.pleats nm ≠ none)
  ∧ "g" ∈ dupBase.gadgets.map GadgetC.gadget_id
  ∧ ∃ n₂, dupBase.add_gadget (NOTGadget "g" "a" "y") = Except.ok n₂
      ∧ n₂.run 5 = (Except.error cycleMsg, n₂) :=
  ⟨by decide, by decide,
    duplicate_gadget_id_cycle_error dupBase (NOTGadget "g" "a" "y") 5
      (by decide) (by decide)⟩

/-!  C7: determinism, FIFO initialization and the order in which a
dequeued gate's dependents are visited.

The source iterates `graph[gid]`, a Python `Set[str]`; its iteration
order is hash-based and unspecified, so the program does NOT guarantee
that dependents are visited "in a deterministic order matching
attachment order".  The embedding's canonical `kahnLoop` is one fixed
admissible realization of that iteration (insertion order, i.e.
attachment order); `kahnLoopWith` ranges over the others.  `ordNet`
below shows the claimed visiting order is a property of the realization
choice, not of the program: reversing the iteration of the very same
dependents set — a permutation of it, hence an equally admissible set
iteration — visits `"c"` before `"b"` against attachment order and even
changes the computed topological order. -/

theorem kahnLoopWith_id (graph : List (String × List String))
    (gmap : List (String × GadgetC)) :
    ∀ (fuel : Nat) (queue : List String) (deg : List (String × Int))
      (order : List GadgetC),
      kahnLoopWith (fun deps => deps) graph gmap fuel queue deg order
        = kahnLoop graph gmap fuel queue deg order := by
  intro fuel
  induction fuel with
  | zero => intro queue deg order; rfl
  | succ fuel ih =>
    intro queue deg order
    cases queue with
    | nil => rfl
    | cons gid rest =>
      simp only [kahnLoopWith, kahnLoop]
      exact ih _ _ _

/-- C7 counterexample.  On `ordNet` (producer `"p"`, consumers `"b"`
then `"c"` in attachment order) the dependents set of `"p"` stores
`{"b", "c"}`.  Reversing its iteration is a permutation of the same set
— an admissible realization of Python's hash-ordered set iteration —
yet under it the dependents are visited `"c"` first, against attachment
order, and Kahn's algorithm outputs `p, c, b` instead of the canonical
`p, b, c`.  So the claim's "dependents are visited in a deterministic
order matching attachment order" is not a consequence of the source:
the source leaves the visiting order to the set's hash order, and
admissible orders exist that violate the claim at this concrete
circuit. -/
theorem dependents_attachment_order_cex :
    List.Perm (List.reverse (graphDeps (graphOf ordNet) "p"))
      (graphDeps (graphOf ordNet) "p")
  ∧ graphDeps (graphOf ordNet) "p" = ["b", "c"]
  ∧ ordNet.gadgets.map GadgetC.gadget_id = ["p", "b", "c"]
  ∧ (topoOrderOf ordNet).map GadgetC.gadget_id = ["p", "b", "c"]
  ∧ (topoOrderWith List.reverse ordNet).map GadgetC.gadget_id
      = ["p", "c", "b"]
  ∧ topoOrderWith List.reverse ordNet ≠ topoOrderOf ordNet := by decide

/-- C7 (amended).  Execution is deterministic as a two-run property:
replaying the same construction script twice and feeding both copies the
same inputs, `run` returns identical results — the embedding, which
fixes one admissible realization of Python's set iteration, is a pure
function of the construction sequence, just as one CPython process fixes
one hash seed.  Kahn's FIFO queue is initialized with the zero-in-degree
gates in attachment order (a subsequence of the ids in original
attachment order, since the id-keyed `in_degree` dict preserves
first-attachment key order).  The canonical scheduler is the
identity-enumeration instance of the set-iteration-parametrized loop;
which order a dequeued gate's dependents are visited in is NOT pinned
down by the source (see the counterexample), so no attachment-order
visiting fact is claimed. -/
theorem deterministic_two_run (ops : List BuildOp)
    (ins : List (String × Option Bool)) (m : Nat) (n₁ n₂ : Network)
    (h₁ : buildNetwork Network.empty ops = Except.ok n₁)
    (h₂ : buildNetwork Network.empty ops = Except.ok n₂) :
    (n₁.set_inputs ins).run m = (n₂.set_inputs ins).run m
  ∧ (initQueue n₁).Sublist (n₁.gadgets.map GadgetC.gadget_id)
  ∧ topoOrderWith (fun deps => deps) n₁ = topoOrderOf n₁ := by
  have he : n₁ = n₂ := by
    rw [h₁] at h₂
    exact Except.ok.inj h₂
  subst he
  exact ⟨rfl, initQueue_sublist n₁, kahnLoopWith_id _ _ _ _ _ _⟩

/-- C7 witness: the half-adder construction script, replayed. -/
theorem deterministic_two_run_witness :
    buildNetwork Network.empty haOps = Except.ok haNet
  ∧ ((haNet.set_inputs [("a", some true), ("b", some true)]).run 5
      = (haNet.set_inputs [("a", some true), ("b", some true)]).run 5
    ∧ (initQueue haNet).Sublist (haNet.gadgets.map GadgetC.gadget_id)
    ∧ topoOrderWith (fun deps => deps) haNet = topoOrderOf haNet) :=
  ⟨by decide,
    deterministic_two_run haOps [("a", some true), ("b", some true)] 5
      haNet haNet (by decide) (by decide)⟩

/-!  C8: a second `run` on a stabilized circuit reproduces the first. -/

/-- If a gate's `evaluate` left its own output signals unchanged, it left
the whole store unchanged: the only write is `outputs[0].signal = v`, and
writing back the value already present is the identity. -/
theorem evalGadget_unchanged (st : List (Option Bool)) (g : GadgetC)
    (h : g.outputs.map (readSig st)
      = g.outputs.map (readSig (evalGadget st g))) :
    evalGadget st g = st := by
  cases ho : g.outputs with
  | nil => simp [evalGadget, ho]
  | cons o rest =>
    rw [ho] at h
    have hev : evalGadget st g = st.set o (gateValue st g) := by
      simp [evalGadget, ho]
    rw [hev] at h ⊢
    simp only [List.map_cons] at h
    injection h with h₁ h₂
    by_cases hlen : o < st.length
    · have hval : readSig (st.set o (gateValue st g)) o = gateValue st g :=
        getD_set_self st o (gateValue st g) none hlen
      rw [hval] at h₁
      rw [show gateValue st g = st.getD o none from h₁.symm]
      exact set_getD_self st o none hlen
    · exact set_oob st o _ (Nat.le_of_not_lt hlen)

theorem foldPass_unchanged (order : List GadgetC) :
    ∀ (st : List (Option Bool)) (b : Bool),
      (order.foldl passStep (st, b)).2 = false →
      b = false ∧ (order.foldl passStep (st, b)).1 = st := by
  induction order with
  | nil => intro st b h; exact ⟨h, rfl⟩
  | cons g rest ih =>
    intro st b h
    rw [List.foldl_cons] at h ⊢
    obtain ⟨hb₂, hres₂⟩ := ih (passStep (st, b) g).1 (passStep (st, b) g).2 h
    have hb₂' : (b || decide (g.outputs.map (readSig st)
        ≠ g.outputs.map (readSig (evalGadget st g)))) = false := hb₂
    have hb : b = false := by
      rcases Bool.or_eq_false_iff.mp hb₂' with ⟨h₁, _⟩
      exact h₁
    have heq : g.outputs.map (readSig st)
        = g.outputs.map (readSig (evalGadget st g)) := by
      have h₃ := (Bool.or_eq_false_iff.mp hb₂').2
      exact not_not.mp (of_decide_eq_false h₃)
    refine ⟨hb, ?_⟩
    calc (rest.foldl passStep (passStep (st, b) g)).1
        = (passStep (st, b) g).1 := hres₂
      _ = evalGadget st g := rfl
      _ = st := evalGadget_unchanged st g heq

/-- A pass that reports no change really changed nothing. -/
theorem runPass_unchanged (st : List (Option Bool)) (order : List GadgetC)
    (h : (runPass st order).2 = false) : (runPass st order).1 = st :=
  (foldPass_unchanged order st false h).2

/-- `run` on an already-stabilized network: the first pass reports no
change, so the loop stops after one iteration with the store untouched
and the snapshot of the current state. -/
theorem stabilized_run (n : Network) (m : Nat) (hm : 1 ≤ m)
    (hstab : stabilized n = true) :
    n.run m = (Except.ok (snapshotOf n), n) := by
  cases ht : n.topological_sort with
  | error e =>
    simp [stabilized, ht] at hstab
  | ok order =>
    have hp : (runPass n.store order).2 = false := by
      simp only [stabilized, ht] at hstab
      simpa using hstab
    cases m with
    | zero => exact absurd hm (by decide)
    | succ m' =>
      have hstable : stabilize order n.store (m' + 1) = (n.store, 1) := by
        simp only [stabilize, hp]
        rw [runPass_unchanged n.store order hp]
        simp
      simp only [Network.run, ht, hstable]

/-- C8.  On a circuit on which `run` has already been called, whose state
has stabilized (a further pass changes no gate's outputs — guaranteed
whenever the first run stopped at a fixpoint) and whose inputs are
untouched since, calling `run` again returns exactly the first call's
result: the same snapshot and the same network.  This rests on each
gate's `evaluate` being a pure function of the current wire values:
re-evaluating at the fixpoint rewrites the values already present. -/
theorem run_idempotent_when_stabilized (n : Network) (m : Nat)
    (hm : 1 ≤ m) (hstab : stabilized (n.run m).2 = true) :
    ((n.run m).2).run m = n.run m := by
  cases ht : n.topological_sort with
  | error e =>
    have h₂ : (n.run m).2 = n := by simp [Network.run, ht]
    rw [h₂] at hstab
    simp [stabilized, ht] at hstab
  | ok order =>
    have h₂ : n.run m =
        (Except.ok
          (snapshotOf { n with store := (stabilize order n.store m).1 }),
         { n with store := (stabilize order n.store m).1 }) := by
      simp [Network.run, ht]
    have hrun := stabilized_run ((n.run m).2) m hm hstab
    rw [hrun, h₂]

/-- C8 witness: the half-adder after a first `run` with `a=b=True`. -/
theorem run_idempotent_when_stabilized_witness :
    1 ≤ 5
  ∧ stabilized
      ((haNet.set_inputs [("a", some true), ("b", some true)]).run 5).2 = true
  ∧ (((haNet.set_inputs [("a", some true), ("b", some true)]).run 5).2).run 5
      = (haNet.set_inputs [("a", some true), ("b", some true)]).run 5 :=
  ⟨by decide, by decide,
    run_idempotent_when_stabilized
      (haNet.set_inputs [("a", some true), ("b", some true)]) 5
      (by decide) (by decide)⟩
